import Mathlib

/-
  Verification development for the hybrid multi-provider fusion engine
  (backend/hybrid of the 7M_Quote repository).

  The Python sources are shallowly embedded: dictionaries of JSON-like
  values become association lists over an inductive `Value` type, floats
  become exact rationals (ℚ), mutation becomes explicit state passing,
  and code that may raise returns `Except`.  Each definition mirrors one
  Python function (named in its doc comment); theorems at the end settle
  the frozen claims.
-/

set_option maxHeartbeats 1000000

-- Core rational arithmetic is marked irreducible, which blocks `decide`
-- on concrete fusion runs; restore default reducibility (kernel checking
-- is unaffected: it never honours reducibility attributes).
set_option allowUnsafeReducibility true
attribute [semireducible] Rat.mul Rat.inv Rat.div Rat.add Rat.sub Rat.blt Rat.neg

namespace Hybrid

/-- JSON-like scalar field value: either a string or a number.  Python
`None` (and an absent key) is represented by `Option.none` at lookup
sites, matching `dict.get` semantics. -/
inductive Value where
  | str (s : String)
  | num (q : ℚ)
deriving DecidableEq, Repr

/-- A candidate entity `fields` dictionary: association list from key to
value, first binding wins (Python dicts have unique keys). -/
abbrev Fields := List (String × Value)

/-- Lookup in a fields dictionary, Python `d.get(k)`. -/
def lookupF : Fields → String → Option Value
  | [], _ => none
  | (k, v) :: rest, key => if k = key then some v else lookupF rest key

/-- Assignment `d[k] = v` on a fields dictionary: replace the first
binding of `k`, or append a new binding when `k` is absent. -/
def setF : Fields → String → Value → Fields
  | [], key, v => [(key, v)]
  | (k, w) :: rest, key, v =>
      if k = key then (k, v) :: rest else (k, w) :: setF rest key v

/-- CandidateEntity record (docs/candidate_entity.md, adapters): base
fields are set at creation; `confidenceCalibrated`, `reason`,
`agreementPartners`, `accepted` model the annotation keys
(`confidence_calibrated`, `_reason`, `_agreement_partners`, `_accepted`)
that Python code adds to the dict later, hence `Option`/default. -/
structure Candidate where
  id : String
  entityType : String
  page : Nat
  bbox : List ℚ
  textRaw : Option String
  fields : Fields
  confidence : ℚ
  provider : String
  lowConfidence : Bool
  confidenceCalibrated : Option ℚ
  reason : Option String
  agreementPartners : Option (List String)
  accepted : Bool
deriving DecidableEq, Repr

/-- Accessor `c.get("confidence_calibrated", c.get("confidence", 0.0))`
used by `_boost_if_agreement` and the fusion score. -/
def calibD (c : Candidate) : ℚ := c.confidenceCalibrated.getD c.confidence

/-- Accessor `c.get("confidence_calibrated", 0)` used by the WELD
backfill comparison in `fuse_entities`. -/
def calibZ (c : Candidate) : ℚ := c.confidenceCalibrated.getD 0

/-- Subtable `fusion_rules` of the ensemble configuration. -/
structure FusionRules where
  providerWeights : List (String × List (String × ℚ))
  agreementBoost : Option ℚ
  preferGridFrom : Option String
deriving DecidableEq, Repr

/-- Subtable `hotspot` of the ensemble configuration. -/
structure HotspotCfg where
  lowConfThreshold : Option ℚ
  maxRegionsPerPage : Option Nat
deriving DecidableEq, Repr

/-- Ensemble configuration (the keys the embedded functions read). -/
structure Cfg where
  fusionRules : FusionRules
  hotspot : HotspotCfg
deriving DecidableEq, Repr

/-- First-binding association lookup (Python `dict.get`) for the
configuration tables. -/
def lookupA {α : Type} : List (String × α) → String → Option α
  | [], _ => none
  | (k, v) :: rest, key => if k = key then some v else lookupA rest key

/-- Lookup in a two-level weight table with default, mirroring
`cfg.get("fusion_rules",{}).get("provider_weights",{}).get(et,{}).get(p,0.0)`
(`_weight_for` in reconcile.py). -/
def weightFor (provider : String) (entityType : String) (cfg : Cfg) : ℚ :=
  match lookupA cfg.fusionRules.providerWeights entityType with
  | none => 0
  | some row => (lookupA row provider).getD 0

/-- Effective hotspot threshold
`cfg.get("hotspot", {}).get("low_conf_threshold", 0.75)`. -/
def thD (cfg : Cfg) : ℚ := cfg.hotspot.lowConfThreshold.getD (3/4)

/-- Effective region cap
`cfg.get("hotspot", {}).get("max_regions_per_page", 999)`. -/
def maxRegionsD (cfg : Cfg) : Nat := cfg.hotspot.maxRegionsPerPage.getD 999

/-- Effective agreement boost
`cfg.get("fusion_rules", {}).get("agreement_boost", 0.0)`. -/
def boostD (cfg : Cfg) : ℚ := cfg.fusionRules.agreementBoost.getD 0

-- ---------------------------------------------------------------------------
-- Scalar counts (pipeline.py)
-- ---------------------------------------------------------------------------

/-- The six scalar count fields of the counts-only output
(`schemas.Counts`). -/
structure Counts where
  weldSymbolsPresent : Bool
  weldSymbolsCount : Nat
  dimValuesCount : Nat
  bomTagCount : Nat
  bomMaterialCount : Nat
  bomQtyCount : Nat
deriving DecidableEq, Repr

/-- Embedding of `_merge_counts` (pipeline.py): OR the presence boolean,
take the MAX of each numeric count. -/
def mergeCounts (base override : Counts) : Counts where
  weldSymbolsPresent := base.weldSymbolsPresent || override.weldSymbolsPresent
  weldSymbolsCount := max base.weldSymbolsCount override.weldSymbolsCount
  dimValuesCount := max base.dimValuesCount override.dimValuesCount
  bomTagCount := max base.bomTagCount override.bomTagCount
  bomMaterialCount := max base.bomMaterialCount override.bomMaterialCount
  bomQtyCount := max base.bomQtyCount override.bomQtyCount

/-- Embedding of `_counts_from_reducto_candidates` (pipeline.py):
derive the six-field counts from Reducto candidate entities. -/
def countsFromReductoCandidates (cands : List Candidate) : Counts :=
  let welds := cands.countP (fun c => c.entityType = "WELD")
  let dims := cands.countP (fun c => c.entityType = "DIMENSION")
  { weldSymbolsPresent := decide (0 < welds)
    weldSymbolsCount := welds
    dimValuesCount := dims
    bomTagCount := 0
    bomMaterialCount := 0
    bomQtyCount := 0 }

/-- Modelled from the spec: the per-field clip cap declared for the
scalar reconciler (§4.6 requires clipping each numeric count to a
declared per-field cap; no definition of `reconcile_counts` exists under
src/, so the cap is fixed here as a positive model constant). -/
def COUNT_CAP : Nat := 500

/-- Modelled from the spec: `reconcile_counts` (imported by pipeline.py
from hybrid.reconcile but absent from src/).  Per §4.6: start from
all-zero/false, OR each source presence flag, take the MAX of each
clipped numeric count, and finally force `weld_symbols_present = true`
whenever the merged weld count is positive. -/
def reconcileCounts (sources : List Counts) : Counts :=
  let zero : Counts :=
    { weldSymbolsPresent := false, weldSymbolsCount := 0, dimValuesCount := 0
      bomTagCount := 0, bomMaterialCount := 0, bomQtyCount := 0 }
  let clip : Counts → Counts := fun s =>
    { s with
      weldSymbolsCount := min s.weldSymbolsCount COUNT_CAP
      dimValuesCount := min s.dimValuesCount COUNT_CAP
      bomTagCount := min s.bomTagCount COUNT_CAP
      bomMaterialCount := min s.bomMaterialCount COUNT_CAP
      bomQtyCount := min s.bomQtyCount COUNT_CAP }
  let merged := sources.foldl (fun acc s => mergeCounts acc (clip s)) zero
  { merged with
    weldSymbolsPresent :=
      merged.weldSymbolsPresent || decide (0 < merged.weldSymbolsCount) }

/-- Step 4 of `run_hybrid_on_image` (pipeline.py): the final merged
counts before validation — the reconciled donut/layoutlm/textract counts
conservatively merged with the Reducto-derived counts. -/
def pipelineMergedCounts (d l t : Counts) (reductoCands : List Candidate) :
    Counts :=
  mergeCounts (reconcileCounts [d, l, t])
    (countsFromReductoCandidates reductoCands)

-- ---------------------------------------------------------------------------
-- Hotspot detection (reconcile.py, find_hotspots)
-- ---------------------------------------------------------------------------

/-- Page/bbox region emitted for backup-provider coverage. -/
structure Region where
  page : Nat
  bbox : List ℚ
deriving DecidableEq, Repr

/-- Region built from a candidate in `find_hotspots`:
`{"page": c.get("page", 0), "bbox": c.get("bbox") or [0,0,0,0]}`. -/
def regionOf (c : Candidate) : Region where
  page := c.page
  bbox := if c.bbox = [] then [0, 0, 0, 0] else c.bbox

/-- Condition for a candidate to feed the textract region list in
`find_hotspots`: below threshold and a NOTE. -/
def textractCond (th : ℚ) (c : Candidate) : Bool :=
  decide (c.confidence < th) && decide (c.entityType = "NOTE")

/-- Condition for a candidate to feed the donut region list in
`find_hotspots`: below threshold and a TABLE or DIMENSION. -/
def donutCond (th : ℚ) (c : Candidate) : Bool :=
  decide (c.confidence < th) &&
    (decide (c.entityType = "TABLE") || decide (c.entityType = "DIMENSION"))

/-- Condition for a candidate to feed the layoutlm region list in
`find_hotspots`: below threshold and a TABLE or WELD. -/
def layoutlmCond (th : ℚ) (c : Candidate) : Bool :=
  decide (c.confidence < th) &&
    (decide (c.entityType = "TABLE") || decide (c.entityType = "WELD"))

/-- Regions appended (in candidate order) to one provider list by the
single pass of `find_hotspots`, before the final slicing. -/
def regionsFull (cond : ℚ → Candidate → Bool) (th : ℚ)
    (cands : List Candidate) : List Region :=
  cands.filterMap (fun c => if cond th c then some (regionOf c) else none)

/-- Result record of `find_hotspots`. -/
structure Hotspots where
  needTextract : Bool
  needDonut : Bool
  needLayoutlm : Bool
  regionsForTextract : List Region
  regionsForDonut : List Region
  regionsForLayoutlm : List Region
deriving DecidableEq, Repr

/-- Embedding of `find_hotspots` (reconcile.py): every candidate whose
confidence is below the threshold appends its region to the lists of the
backup providers fixed by its entity type (TABLE feeds layoutlm and
donut, DIMENSION feeds donut, WELD feeds layoutlm, NOTE feeds textract);
each returned list is the `[: max_regions_per_page]` slice of the
appended list, and a need flag is true when its list was ever fed. -/
def findHotspots (cands : List Candidate) (cfg : Cfg) : Hotspots :=
  let th := thD cfg
  { needTextract := cands.any (textractCond th)
    needDonut := cands.any (donutCond th)
    needLayoutlm := cands.any (layoutlmCond th)
    regionsForTextract := (regionsFull textractCond th cands).take (maxRegionsD cfg)
    regionsForDonut := (regionsFull donutCond th cands).take (maxRegionsD cfg)
    regionsForLayoutlm := (regionsFull layoutlmCond th cands).take (maxRegionsD cfg) }

-- ---------------------------------------------------------------------------
-- Candidate creation (adapters/reducto_adapter.py, _make_candidate)
-- ---------------------------------------------------------------------------

/-- Embedding of `_make_candidate` (reducto_adapter.py).  The
`uuid.uuid4().hex[:8]` suffix is nondeterministic and passed in as
`uuidHex`.  Note the hardcoded `low_confidence: confidence < 0.4`. -/
def makeCandidate (entityType : String) (page : Nat) (bbox : List ℚ)
    (provider : String) (confidence : ℚ) (fields : Fields)
    (textRaw : Option String) (uuidHex : String) : Candidate where
  id := entityType.toLower ++ "_" ++ uuidHex
  entityType := entityType
  page := page
  bbox := bbox
  textRaw := textRaw
  fields := fields
  confidence := confidence
  provider := provider
  lowConfidence := decide (confidence < 2/5)
  confidenceCalibrated := none
  reason := none
  agreementPartners := none
  accepted := false

-- ---------------------------------------------------------------------------
-- Telemetry logging (utils/logging_ndjson.py)
-- ---------------------------------------------------------------------------

/-- Outcome of the filesystem append attempted by `_append_ndjson`
(directory creation, open, write): either it succeeds or the OS raises. -/
inductive WriteOutcome where
  | ok
  | fail (msg : String)
deriving DecidableEq, Repr

/-- Embedding of `_append_ndjson` (logging_ndjson.py): the function body
has no exception handling, so a failed write propagates (`Except.error`)
and a successful one returns `()`. -/
def appendNdjson (outcome : WriteOutcome) : Except String Unit :=
  match outcome with
  | .ok => .ok ()
  | .fail msg => .error msg

/-- Entity-level telemetry row assembled by `log_entity` (the fields the
claims observe; timestamps are passed in since `datetime.utcnow` is an
effect). -/
structure EntityRow where
  ts : String
  entityType : String
  provider : String
  confidenceRaw : ℚ
  confidenceCalibrated : ℚ
  acceptedFlag : Bool
  selectionReason : Option String
  lowConfidence : Bool
deriving DecidableEq, Repr

/-- Row construction in `log_entity` (logging_ndjson.py), pure. -/
def entityRow (ts : String) (cand : Candidate) : EntityRow where
  ts := ts
  entityType := cand.entityType
  provider := cand.provider
  confidenceRaw := cand.confidence
  confidenceCalibrated := calibD cand
  acceptedFlag := cand.accepted
  selectionReason := cand.reason
  lowConfidence := cand.lowConfidence

/-- Embedding of `log_entity` (logging_ndjson.py): build the row, then
call `_append_ndjson`; there is no try/except, so the write outcome is
returned as is (the row is reported on success for the embedding). -/
def logEntity (ts : String) (cand : Candidate) (outcome : WriteOutcome) :
    Except String EntityRow :=
  match appendNdjson outcome with
  | .ok () => .ok (entityRow ts cand)
  | .error msg => .error msg

/-- Embedding of `log_summary` (logging_ndjson.py): the row content is
irrelevant to the claims; as in the source there is no exception
handling around `_append_ndjson`. -/
def logSummary (outcome : WriteOutcome) : Except String Unit :=
  appendNdjson outcome

-- ---------------------------------------------------------------------------
-- LLM adjudicator (adjudicator.py, adjudicate_conflict)
-- ---------------------------------------------------------------------------

/-- Conflict record consumed by `adjudicate_conflict`. -/
structure Conflict where
  entityType : String
  candidates : List Candidate
deriving DecidableEq, Repr

/-- Observable behaviour of the external adjudicator call plus
`json.loads` on its reply text: the service call raises (network or
service error), or returns text that fails to parse as a JSON object, or
returns text parsing to a JSON object with the given bindings. -/
inductive AdjResponse where
  | raises
  | invalidJson
  | jsonObj (kvs : List (String × Value))
deriving DecidableEq, Repr

/-- Python `max(cands, key=lambda c: c.get("confidence", 0.0))`: raises
on an empty list, otherwise keeps the first maximal element. -/
def pyMaxByConf : List Candidate → Except Unit Candidate
  | [] => .error ()
  | c :: rest =>
      .ok (rest.foldl (fun b x => if b.confidence < x.confidence then x else b) c)

/-- Fields dictionary returned as the adjudication result: every present
binding keeps its value (result entries are `Option Value` because the
schema-filtered branch can map a key to JSON null). -/
def fieldsAsResult (f : Fields) : List (String × Option Value) :=
  f.map (fun kv => (kv.1, some kv.2))

/-- Embedding of `adjudicate_conflict` (adjudicator.py).  With the
`USE_ADJUDICATOR` toggle off, return the fields of the first
highest-raw-confidence candidate (Python `max` raises on an empty
candidate list).  With the toggle on: a raising service call propagates
(only `json.loads` and the key filtering sit inside try/except); a reply
that fails to parse as a JSON object falls back like the toggle-off
path; a parsed JSON object is filtered to exactly `schema_keys`, absent
keys mapping to null. -/
def adjudicateConflict (useAdjudicator : Bool) (conflict : Conflict)
    (schemaKeys : List String) (resp : AdjResponse) :
    Except Unit (List (String × Option Value)) :=
  if useAdjudicator = false then
    do
      let c ← pyMaxByConf conflict.candidates
      pure (fieldsAsResult c.fields)
  else
    match resp with
    | .raises => .error ()
    | .invalidJson =>
        do
          let c ← pyMaxByConf conflict.candidates
          pure (fieldsAsResult c.fields)
    | .jsonObj kvs =>
        .ok (schemaKeys.map (fun k => (k, lookupF kvs k)))

-- ---------------------------------------------------------------------------
-- Calibration and agreement boost (reconcile.py)
-- ---------------------------------------------------------------------------

/-- Embedding of `calibrate_confidences` (reconcile.py): identity
calibration, `c["confidence_calibrated"] = c.get("confidence", 0.0)`. -/
def calibrateConfidences (cands : List Candidate) : List Candidate :=
  cands.map (fun c => { c with confidenceCalibrated := some c.confidence })

/-- Field value used for DIMENSION agreement grouping,
`(c.get("fields") or {}).get("value")`. -/
def dimValue (c : Candidate) : Option Value := lookupF c.fields "value"

/-- Providers of the agreeing partners of the member at position `i` of
its value group: the deduplicated providers of every OTHER position
holding the same value (`list(set(x.get("provider") for x in group if x
is not g))`; Python object identity becomes list position, and the
arbitrary set order is determinized as first-occurrence order). -/
def partnersAt (all : List (Nat × Candidate)) (i : Nat) (v : Value) :
    List String :=
  ((all.filter (fun jd => decide (jd.1 ≠ i) && decide (dimValue jd.2 = some v))).map
    (fun jd => jd.2.provider)).dedup

/-- Enumeration of a list with positions starting at `start`. -/
def enumFrom : Nat → List Candidate → List (Nat × Candidate)
  | _, [] => []
  | i, c :: rest => (i, c) :: enumFrom (i + 1) rest

/-- Update applied by the DIMENSION branch of `_boost_if_agreement` to
the member at position `i`: when its value is shared by a group of size
at least two, bump the calibrated confidence (clamped to 1) and record
the agreeing partners; otherwise leave it unchanged. -/
def boostDimOne (cands : List Candidate) (boost : ℚ) (i : Nat)
    (c : Candidate) : Candidate :=
  match dimValue c with
  | none => c
  | some v =>
      if 2 ≤ cands.countP (fun d => dimValue d = some v) then
        { c with
          confidenceCalibrated := some (min 1 (calibD c + boost))
          agreementPartners := some (partnersAt (enumFrom 0 cands) i v) }
      else c

/-- Position-indexed traversal applying `boostDimOne`. -/
def boostDimGo (cands : List Candidate) (boost : ℚ) :
    Nat → List Candidate → List Candidate
  | _, [] => []
  | i, c :: rest => boostDimOne cands boost i c :: boostDimGo cands boost (i + 1) rest

/-- DIMENSION branch of `_boost_if_agreement`: group by exact field
value (members with a null/absent value are skipped), and boost every
member of a group of size at least two. -/
def boostDimension (cands : List Candidate) (boost : ℚ) : List Candidate :=
  boostDimGo cands boost 0 cands

/-- TABLE branch of `_boost_if_agreement`: a universal boost of half the
configured amount to every candidate, clamped to 1. -/
def boostTable (cands : List Candidate) (boost : ℚ) : List Candidate :=
  cands.map (fun c =>
    { c with confidenceCalibrated := some (min 1 (calibD c + boost / 2)) })

/-- Embedding of `_boost_if_agreement` (reconcile.py): with an empty
list or a non-positive configured boost the list is untouched; otherwise
the DIMENSION or TABLE branch applies, and any other entity type is
untouched. -/
def boostIfAgreement (cands : List Candidate) (entityType : String)
    (cfg : Cfg) : List Candidate :=
  if cands = [] ∨ boostD cfg ≤ 0 then cands
  else if entityType = "DIMENSION" then boostDimension cands (boostD cfg)
  else if entityType = "TABLE" then boostTable cands (boostD cfg)
  else cands

-- ---------------------------------------------------------------------------
-- Winner selection and fusion (reconcile.py, fuse_entities)
-- ---------------------------------------------------------------------------

/-- Weighted calibrated score of a candidate,
`_weight_for(c.get("provider"), etype, cfg) *
c.get("confidence_calibrated", c.get("confidence", 0.0))`. -/
def score (entityType : String) (cfg : Cfg) (c : Candidate) : ℚ :=
  weightFor c.provider entityType cfg * calibD c

/-- Selection loop of `fuse_entities`: running best starts at
`(None, -1.0)` and is replaced exactly when a score strictly exceeds the
running best score. -/
def selectWinner (cands : List Candidate) (entityType : String) (cfg : Cfg) :
    Option Candidate :=
  (cands.foldl
    (fun best c =>
      if best.2 < score entityType cfg c then (some c, score entityType cfg c) else best)
    (none, -1)).1

/-- Fixed WELD backfill field list of `fuse_entities`. -/
def weldFieldNames : List String :=
  ["side", "process", "symbol", "size", "size_unit", "length", "pitch",
   "contour", "finish", "tail"]

/-- Python membership test `x in [None, "", 0]` on a field value as seen
through `dict.get` (absent and null both read as `None`). -/
def isEmptyZero : Option Value → Bool
  | none => true
  | some (.str s) => decide (s = "")
  | some (.num q) => decide (q = 0)

/-- Python test `v not in [None, ""]` on a PRESENT value: only the empty
string is refused (zero passes, unlike `isEmptyZero`). -/
def isNonNullStr : Value → Bool
  | .str s => decide (s ≠ "")
  | .num _ => true

/-- One `(candidate, field)` check of the WELD backfill loop in
`fuse_entities`: when the working fields are empty/null/zero at `k`, the
candidate has a value other than null or empty string at `k`, and its
calibrated confidence (defaulted to 0) is at least the winner clone's,
copy the value and set the reason to `field_backfill`. -/
def backfillStep (winnerCal : ℚ) (c : Candidate) (st : Fields × String)
    (k : String) : Fields × String :=
  match lookupF c.fields k with
  | none => st
  | some v =>
      if isEmptyZero (lookupF st.1 k) && isNonNullStr v &&
          decide (winnerCal ≤ calibZ c) then
        (setF st.1 k v, "field_backfill")
      else st

/-- The WELD backfill double loop of `fuse_entities`: over every
candidate of the group (the winner clone is a fresh object, so the
`c is fused_ent` guard never fires and no candidate is skipped), over
every field name, threading the working fields and the reason. -/
def backfillWeld (f0 : Fields) (winnerCal : ℚ) (cands : List Candidate) :
    Fields × String :=
  cands.foldl (fun st c => weldFieldNames.foldl (backfillStep winnerCal c) st)
    (f0, "owner_default")

/-- The `(candidate, field)` pairs visited by the WELD backfill double
loop, in visit order (candidate-major). -/
def fieldPairs (cands : List Candidate) : List (Candidate × String) :=
  cands.flatMap (fun c => weldFieldNames.map (fun k => (c, k)))

/-- The WELD backfill loop as a single fold over its visited
`(candidate, field)` pairs. -/
def backfillPairs (winnerCal : ℚ) (st : Fields × String)
    (ps : List (Candidate × String)) : Fields × String :=
  ps.foldl (fun st p => backfillStep winnerCal p.1 st p.2) st

/-- Bool test: the candidate holds, at field `k`, a value passing the
backfill source test `not in [None, ""]`. -/
def filledAt (c : Candidate) (k : String) : Bool :=
  match lookupF c.fields k with
  | none => false
  | some u => isNonNullStr u

/-- Bool condition under which the WELD backfill loop copies from
candidate `c` at field `k`, stated against the winner's original fields:
the winner's value is empty/null/zero, the candidate's value passes the
source test, and the candidate's calibrated confidence (defaulted to 0)
is at least the winner's. -/
def backfillTriggerB (winnerCal : ℚ) (orig : Fields) (c : Candidate)
    (k : String) : Bool :=
  isEmptyZero (lookupF orig k) && filledAt c k &&
    decide (winnerCal ≤ calibZ c)

/-- Python `fused_ent.get("_reason") or "highest_weighted"`: falsy
(absent or empty-string) reasons are replaced. -/
def pyOrReason : Option String → String
  | none => "highest_weighted"
  | some s => if s = "" then "highest_weighted" else s

/-- Clone of the winning candidate taken by `fuse_entities`:
`fused_ent = copy.deepcopy(best)` followed by `_accepted = True` and
`_reason = "owner_default"`. -/
def cloneWinner (best : Candidate) : Candidate :=
  { best with accepted := true, reason := some "owner_default" }

/-- Entity-type-specific backfill rules applied by `fuse_entities` to
the cloned winner (the clone shares the winner's fields and calibrated
confidence, so the WELD backfill reads them off `best` directly). -/
def fuseFinish (entityType : String) (boosted : List Candidate) (cfg : Cfg)
    (best : Candidate) : Candidate :=
  if entityType = "TABLE" then
    if (cloneWinner best).provider ≠ cfg.fusionRules.preferGridFrom.getD "reducto"
    then { cloneWinner best with reason := some "highest_weighted" }
    else cloneWinner best
  else if entityType = "WELD" then
    { cloneWinner best with
      fields := (backfillWeld best.fields (calibZ best) boosted).1
      reason := some (backfillWeld best.fields (calibZ best) boosted).2 }
  else if entityType = "DIMENSION" then
    { cloneWinner best with
      reason := some (pyOrReason (cloneWinner best).reason) }
  else cloneWinner best

/-- Body of the per-entity-type loop of `fuse_entities`: boost the
group, pick the winner by weighted calibrated score, clone it with
`_accepted = True` and `_reason = "owner_default"`, then apply the
entity-type-specific backfill rules. -/
def fuseGroup (entityType : String) (cands : List Candidate) (cfg : Cfg) :
    Option Candidate :=
  match selectWinner (boostIfAgreement cands entityType cfg) entityType cfg with
  | none => none
  | some best =>
      some (fuseFinish entityType (boostIfAgreement cands entityType cfg) cfg best)

/-- First-encounter-order list of the distinct entity types of the
candidates (the key order of the `by_type` dict of `fuse_entities`). -/
def groupKeys (cands : List Candidate) : List String :=
  cands.foldl (fun ks c => if c.entityType ∈ ks then ks else ks ++ [c.entityType]) []

/-- Candidates of one entity type, in input order (the value lists of
the `by_type` dict of `fuse_entities`). -/
def groupFor (cands : List Candidate) (t : String) : List Candidate :=
  cands.filter (fun c => c.entityType = t)

/-- Embedding of `fuse_entities` (reconcile.py): group the candidates by
entity type in first-encounter order and run the per-type selection and
backfill on each group, skipping groups yielding no winner. -/
def fuseEntities (cands : List Candidate) (cfg : Cfg) : List Candidate :=
  (groupKeys cands).filterMap (fun t => fuseGroup t (groupFor cands t) cfg)

-- ---------------------------------------------------------------------------
-- Concrete instances used by examples, witnesses and counterexamples
-- ---------------------------------------------------------------------------

/-- The built-in safe-default ensemble configuration of `_load_cfg`
(pipeline.py): the provider weight table and the 0.75 hotspot threshold;
keys absent from the default dict are `none`. -/
def defaultEnsembleCfg : Cfg where
  fusionRules :=
    { providerWeights :=
        [("TABLE", [("reducto", 6/10), ("layoutlmv3", 25/100),
                    ("donut", 1/10), ("textract", 5/100)]),
         ("DIMENSION", [("reducto", 55/100), ("donut", 3/10),
                        ("layoutlmv3", 1/10), ("textract", 5/100)]),
         ("WELD", [("layoutlmv3", 6/10), ("reducto", 3/10),
                   ("donut", 7/100), ("textract", 3/100)]),
         ("NOTE", [("textract", 45/100), ("reducto", 3/10),
                   ("donut", 2/10), ("layoutlmv3", 5/100)]),
         ("SECTION", [("reducto", 65/100), ("layoutlmv3", 25/100),
                      ("donut", 7/100), ("textract", 3/100)])]
      agreementBoost := none
      preferGridFrom := none }
  hotspot := { lowConfThreshold := some (3/4), maxRegionsPerPage := none }

/-- DIMENSION candidate A of the fusion selection example: provider
donut, confidence 0.9, default weight 0.3. -/
def dimCandA : Candidate :=
  makeCandidate "DIMENSION" 0 [] "donut" (9/10) [("value", .str "10mm")] none "0a"

/-- DIMENSION candidate B of the fusion selection example: provider
reducto, confidence 0.6, default weight 0.55 (the expected winner). -/
def dimCandB : Candidate :=
  makeCandidate "DIMENSION" 0 [] "reducto" (6/10) [("value", .str "12mm")] none "0b"

/-- DIMENSION candidate C of the fusion selection example: provider
layoutlmv3, confidence 0.4, default weight 0.1. -/
def dimCandC : Candidate :=
  makeCandidate "DIMENSION" 0 [] "layoutlmv3" (2/5) [("value", .str "14mm")] none "0c"

/-- A lone WELD candidate whose `size` field is the number 0: fusing it
alone already triggers the self-backfill path of `fuse_entities`. -/
def weldSizeZero : Candidate :=
  makeCandidate "WELD" 0 [] "reducto" (8/10) [("size", .num 0)] none "0d"

/-- WELD winner of the backfill example: `size` missing. -/
def weldWinner : Candidate :=
  makeCandidate "WELD" 0 [] "layoutlmv3" (7/10) [("symbol", .str "fillet")] none "0e"

/-- Losing WELD candidate of the backfill example: equal confidence and
a non-null `size`. -/
def weldLoser : Candidate :=
  makeCandidate "WELD" 0 [] "reducto" (7/10) [("size", .str "5mm")] none "0f"

/-- A WELD candidate with confidence 0.3 of the hotspot escalation
example. -/
def weldLowConf : Candidate :=
  makeCandidate "WELD" 2 [1, 2, 3, 4] "reducto" (3/10) [] none "0g"

/-- A two-candidate DIMENSION conflict for the adjudicator claims. -/
def conflictEx : Conflict where
  entityType := "DIMENSION"
  candidates := [dimCandA, dimCandB]

/-- Concrete counts source with a positive weld count but the presence
flag left false. -/
def countsWeldOnly : Counts where
  weldSymbolsPresent := false
  weldSymbolsCount := 2
  dimValuesCount := 0
  bomTagCount := 0
  bomMaterialCount := 0
  bomQtyCount := 0

/-- Concrete all-zero counts source. -/
def countsZero : Counts where
  weldSymbolsPresent := false
  weldSymbolsCount := 0
  dimValuesCount := 0
  bomTagCount := 0
  bomMaterialCount := 0
  bomQtyCount := 0

/-- Two agreeing DIMENSION candidates (same exact value) and one
disagreeing one, for the agreement-boost witness. -/
def dimAgreeA : Candidate :=
  makeCandidate "DIMENSION" 0 [] "reducto" (6/10) [("value", .str "25mm")] none "0h"

/-- Second agreeing DIMENSION candidate, different provider. -/
def dimAgreeB : Candidate :=
  makeCandidate "DIMENSION" 0 [] "donut" (5/10) [("value", .str "25mm")] none "0i"

/-- Disagreeing DIMENSION candidate. -/
def dimAgreeC : Candidate :=
  makeCandidate "DIMENSION" 0 [] "textract" (4/10) [("value", .str "99mm")] none "0j"

/-- A configuration carrying a positive agreement boost of 0.2. -/
def boostCfg : Cfg where
  fusionRules :=
    { providerWeights := defaultEnsembleCfg.fusionRules.providerWeights
      agreementBoost := some (2/10)
      preferGridFrom := none }
  hotspot := { lowConfThreshold := some (3/4), maxRegionsPerPage := none }

-- ---------------------------------------------------------------------------
-- Helper lemmas
-- ---------------------------------------------------------------------------

@[ext] theorem Counts.ext {a b : Counts}
    (h1 : a.weldSymbolsPresent = b.weldSymbolsPresent)
    (h2 : a.weldSymbolsCount = b.weldSymbolsCount)
    (h3 : a.dimValuesCount = b.dimValuesCount)
    (h4 : a.bomTagCount = b.bomTagCount)
    (h5 : a.bomMaterialCount = b.bomMaterialCount)
    (h6 : a.bomQtyCount = b.bomQtyCount) : a = b := by
  cases a; cases b; simp_all

/-- Specification of the Python `max`-style fold keeping the first
maximal element: the result splits the scanned list, dominates every
element, and strictly dominates everything before its first position. -/
theorem foldMax_spec {α : Type} (f : α → ℚ) :
    ∀ (l : List α) (c₀ : α),
      ∃ c l₁ l₂,
        l.foldl (fun b x => if f b < f x then x else b) c₀ = c ∧
        c₀ :: l = l₁ ++ c :: l₂ ∧
        (∀ d ∈ c₀ :: l, f d ≤ f c) ∧
        (∀ d ∈ l₁, f d < f c) := by
  intro l
  induction l with
  | nil =>
      intro c₀
      exact ⟨c₀, [], [], rfl, rfl, by simp, by simp⟩
  | cons x l ih =>
      intro c₀
      by_cases h : f c₀ < f x
      · obtain ⟨c, l₁, l₂, hfold, hsplit, hmax, hpre⟩ := ih x
        have hxc : f x ≤ f c := hmax x (by simp)
        refine ⟨c, c₀ :: l₁, l₂, ?_, ?_, ?_, ?_⟩
        · simpa [h] using hfold
        · simpa using hsplit
        · intro d hd
          rcases List.mem_cons.mp hd with rfl | hd
          · exact (le_of_lt h).trans hxc
          · exact hmax d hd
        · intro d hd
          rcases List.mem_cons.mp hd with rfl | hd
          · exact h.trans_le hxc
          · exact hpre d hd
      · push_neg at h
        obtain ⟨c, l₁, l₂, hfold, hsplit, hmax, hpre⟩ := ih c₀
        have hc0 : f c₀ ≤ f c := hmax c₀ (by simp)
        cases l₁ with
        | nil =>
            simp only [List.nil_append] at hsplit
            injection hsplit with h1 h2
            subst h1
            subst h2
            refine ⟨c₀, [], x :: l, ?_, by simp, ?_, by simp⟩
            · simpa [not_lt.mpr h] using hfold
            · intro d hd
              rcases List.mem_cons.mp hd with rfl | hd
              · exact le_refl _
              · rcases List.mem_cons.mp hd with rfl | hd
                · exact h.trans hc0
                · exact hmax d (by simp [hd])
        | cons y l₁t =>
            have hy : y = c₀ ∧ l = l₁t ++ c :: l₂ := by
              have := hsplit
              simp at this
              exact ⟨this.1.symm, this.2⟩
            obtain ⟨rfl, hl⟩ := hy
            refine ⟨c, y :: x :: l₁t, l₂, ?_, ?_, ?_, ?_⟩
            · simpa [not_lt.mpr h] using hfold
            · simp [hl]
            · intro d hd
              rcases List.mem_cons.mp hd with rfl | hd
              · exact hc0
              · rcases List.mem_cons.mp hd with rfl | hd
                · exact h.trans hc0
                · exact hmax d (by simp [hd])
            · intro d hd
              rcases List.mem_cons.mp hd with rfl | hd
              · exact hpre d (by simp)
              · rcases List.mem_cons.mp hd with rfl | hd
                · exact lt_of_le_of_lt h (hpre y (by simp))
                · exact hpre d (by simp [hd])

/-- Python `max` over a non-empty candidate list returns the first
candidate of maximal raw confidence. -/
theorem pyMaxByConf_spec (cands : List Candidate) (h : cands ≠ []) :
    ∃ c l₁ l₂, pyMaxByConf cands = .ok c ∧ cands = l₁ ++ c :: l₂ ∧
      (∀ d ∈ cands, d.confidence ≤ c.confidence) ∧
      (∀ d ∈ l₁, d.confidence < c.confidence) := by
  match cands with
  | [] => exact absurd rfl h
  | c₀ :: rest =>
      obtain ⟨c, l₁, l₂, hfold, hsplit, hmax, hpre⟩ :=
        foldMax_spec (fun d : Candidate => d.confidence) rest c₀
      exact ⟨c, l₁, l₂, congrArg Except.ok hfold, hsplit, hmax, hpre⟩

-- ---------------------------------------------------------------------------
-- Claim theorems
-- ---------------------------------------------------------------------------

/-- C7: the scalar counts merge `_merge_counts` is associative,
commutative and idempotent on the six scalar fields — booleans are
combined by OR, numeric counts by MAX — so the two nested orders and the
flat three-way merge coincide, argument order is irrelevant, and merging
a counts object with itself returns it unchanged. -/
theorem c7_merge_counts_algebra (a b c : Counts) :
    mergeCounts (mergeCounts a b) c = mergeCounts a (mergeCounts b c) ∧
    mergeCounts (mergeCounts a b) c = [b, c].foldl mergeCounts a ∧
    mergeCounts a b = mergeCounts b a ∧
    mergeCounts a a = a := by
  refine ⟨?_, ?_, ?_, ?_⟩ <;>
    apply Counts.ext <;>
      simp [mergeCounts, List.foldl, Bool.or_assoc, Bool.or_comm,
        Bool.or_left_comm, Nat.max_assoc, Nat.max_comm, Nat.max_left_comm]

/-- C3: in the merged counts of the pipeline (the spec-modelled scalar
reconciler over the donut/layoutlm/textract sources, conservatively
merged by `_merge_counts` with the Reducto-derived counts), any source
with a positive weld count forces `weld_symbols_present = true`, and a
positive merged weld count forces `weld_symbols_present = true` even
when no source declared it. -/
theorem c3_weld_presence_consistency (d l t : Counts)
    (rc : List Candidate) :
    ((0 < d.weldSymbolsCount ∨ 0 < l.weldSymbolsCount ∨
        0 < t.weldSymbolsCount ∨
        0 < rc.countP (fun c => c.entityType = "WELD")) →
      (pipelineMergedCounts d l t rc).weldSymbolsPresent = true) ∧
    (0 < (pipelineMergedCounts d l t rc).weldSymbolsCount →
      (pipelineMergedCounts d l t rc).weldSymbolsPresent = true) := by
  constructor
  · intro h
    simp only [pipelineMergedCounts, reconcileCounts, mergeCounts,
      countsFromReductoCandidates, COUNT_CAP, List.foldl,
      Bool.or_eq_true, decide_eq_true_eq]
    omega
  · intro h
    simp only [pipelineMergedCounts, reconcileCounts, mergeCounts,
      countsFromReductoCandidates, COUNT_CAP, List.foldl] at h
    simp only [pipelineMergedCounts, reconcileCounts, mergeCounts,
      countsFromReductoCandidates, COUNT_CAP, List.foldl,
      Bool.or_eq_true, decide_eq_true_eq]
    omega

/-- Witness for C3 at a concrete input: one source has weld count 2 and
presence false, all others are zero, and the merged presence is true. -/
theorem c3_witness :
    (0 < countsWeldOnly.weldSymbolsCount ∨ 0 < countsZero.weldSymbolsCount ∨
      0 < countsZero.weldSymbolsCount ∨
      0 < ([] : List Candidate).countP (fun c => c.entityType = "WELD")) ∧
    (pipelineMergedCounts countsWeldOnly countsZero countsZero []).weldSymbolsPresent
      = true :=
  ⟨by decide,
   (c3_weld_presence_consistency countsWeldOnly countsZero countsZero []).1
     (by decide)⟩

/-- C8 counterexample: `_make_candidate` hardcodes the low-confidence
cutoff at 0.4, so a candidate of confidence 0.5 is NOT marked
low-confidence although 0.5 is below the configured
`hotspot.low_conf_threshold` of 0.75 — refuting the claimed invariant
`low_confidence == (confidence < global_low_conf_threshold)`. -/
theorem c8_counterexample :
    (makeCandidate "WELD" 0 [] "reducto" (1/2) [] none "0k").lowConfidence
        = false ∧
    (1/2 : ℚ) < thD defaultEnsembleCfg := by
  exact ⟨by decide, by decide⟩

/-- C8 as amended: at creation time `low_confidence` equals
`confidence < 0.4` with 0.4 a hardcoded constant of the adapter,
independent of the configured `hotspot.low_conf_threshold`. -/
theorem c8_low_confidence_amended (entityType : String) (page : Nat)
    (bbox : List ℚ) (provider : String) (confidence : ℚ) (fields : Fields)
    (textRaw : Option String) (uuidHex : String) :
    (makeCandidate entityType page bbox provider confidence fields textRaw
        uuidHex).lowConfidence = decide (confidence < 2/5) := rfl

/-- C9 counterexample: `_append_ndjson` and its callers have no
exception handling, so a failed write propagates out of `log_entity`
instead of being swallowed — refuting the claim that telemetry logging
never raises to its caller. -/
theorem c9_counterexample :
    logEntity "2026-10-12T00:00:00.000Z" dimCandA (.fail "ENOSPC")
      = .error "ENOSPC" := rfl

/-- C9 as amended: `log_entity` and `log_summary` return normally on a
successful write and propagate the error of a failed write to their
caller (nothing in the logging path swallows it). -/
theorem c9_logging_amended (ts : String) (cand : Candidate) (msg : String) :
    logEntity ts cand .ok = .ok (entityRow ts cand) ∧
    logEntity ts cand (.fail msg) = .error msg ∧
    logSummary .ok = .ok () ∧
    logSummary (.fail msg) = .error msg :=
  ⟨rfl, rfl, rfl, rfl⟩

/-- C4 counterexample: with the adjudicator toggle on, an erroring
external service call propagates out of `adjudicate_conflict` (only the
JSON parsing sits inside try/except), refuting the claim that
`adjudicate` never raises to the caller on a network/service error. -/
theorem c4_counterexample :
    adjudicateConflict true conflictEx ["value"] .raises = .error () := rfl

/-- C4 as amended: for a conflict with a non-empty candidate list, when
the toggle is off, or the service reply fails to parse as a JSON object,
`adjudicate_conflict` deterministically returns the fields of the first
candidate of maximal raw confidence; when the reply parses as a JSON
object it is returned filtered to exactly the schema keys (absent keys
mapping to null) even when keys are missing or extra; and an erroring
service call propagates to the caller. -/
theorem c4_adjudicate_amended (conflict : Conflict) (schemaKeys : List String)
    (h : conflict.candidates ≠ []) :
    ∃ c l₁ l₂, conflict.candidates = l₁ ++ c :: l₂ ∧
      (∀ d ∈ conflict.candidates, d.confidence ≤ c.confidence) ∧
      (∀ d ∈ l₁, d.confidence < c.confidence) ∧
      (∀ resp, adjudicateConflict false conflict schemaKeys resp
          = .ok (fieldsAsResult c.fields)) ∧
      adjudicateConflict true conflict schemaKeys .invalidJson
          = .ok (fieldsAsResult c.fields) ∧
      (∀ kvs, adjudicateConflict true conflict schemaKeys (.jsonObj kvs)
          = .ok (schemaKeys.map (fun k => (k, lookupF kvs k)))) ∧
      adjudicateConflict true conflict schemaKeys .raises = .error () := by
  obtain ⟨c, l₁, l₂, hpy, hsplit, hmax, hpre⟩ :=
    pyMaxByConf_spec conflict.candidates h
  refine ⟨c, l₁, l₂, hsplit, hmax, hpre, ?_, ?_, ?_, ?_⟩
  · intro resp
    simp [adjudicateConflict, hpy]
  · simp [adjudicateConflict, hpy]
  · intro kvs
    simp [adjudicateConflict]
  · simp [adjudicateConflict]

/-- Witness for C4 at a concrete two-candidate conflict. -/
theorem c4_witness :
    conflictEx.candidates ≠ [] ∧
    ∃ c l₁ l₂, conflictEx.candidates = l₁ ++ c :: l₂ ∧
      (∀ d ∈ conflictEx.candidates, d.confidence ≤ c.confidence) ∧
      (∀ d ∈ l₁, d.confidence < c.confidence) ∧
      (∀ resp, adjudicateConflict false conflictEx ["value"] resp
          = .ok (fieldsAsResult c.fields)) ∧
      adjudicateConflict true conflictEx ["value"] .invalidJson
          = .ok (fieldsAsResult c.fields) ∧
      (∀ kvs, adjudicateConflict true conflictEx ["value"] (.jsonObj kvs)
          = .ok (["value"].map (fun k => (k, lookupF kvs k)))) ∧
      adjudicateConflict true conflictEx ["value"] .raises = .error () :=
  ⟨by decide, c4_adjudicate_amended conflictEx ["value"] (by decide)⟩

/-- Running the selection loop of `fuse_entities` from an already-chosen
best reduces to the simple first-argmax fold. -/
theorem selectWinner_run (etype : String) (cfg : Cfg) :
    ∀ (l : List Candidate) (b : Candidate),
      l.foldl
        (fun best c =>
          if best.2 < score etype cfg c then (some c, score etype cfg c) else best)
        (some b, score etype cfg b)
      = ((some (l.foldl
            (fun x y => if score etype cfg x < score etype cfg y then y else x) b) :
          Option Candidate),
         score etype cfg (l.foldl
            (fun x y => if score etype cfg x < score etype cfg y then y else x) b)) := by
  intro l
  induction l with
  | nil => intro b; rfl
  | cons c l ih =>
      intro b
      by_cases h : score etype cfg b < score etype cfg c
      · simp only [List.foldl_cons, if_pos h]
        exact ih c
      · simp only [List.foldl_cons, if_neg h]
        exact ih b

/-- The selection loop of `fuse_entities` picks the first candidate of
maximal weighted calibrated score, provided every score beats the -1
initialization (in particular whenever all scores are non-negative). -/
theorem selectWinner_spec (cands : List Candidate) (etype : String)
    (cfg : Cfg) (hne : cands ≠ [])
    (h0 : ∀ c ∈ cands, 0 ≤ score etype cfg c) :
    ∃ c l₁ l₂, selectWinner cands etype cfg = some c ∧
      cands = l₁ ++ c :: l₂ ∧
      (∀ d ∈ cands, score etype cfg d ≤ score etype cfg c) ∧
      (∀ d ∈ l₁, score etype cfg d < score etype cfg c) := by
  match cands with
  | [] => exact absurd rfl hne
  | c₀ :: rest =>
      have hpos : (-1 : ℚ) < score etype cfg c₀ :=
        lt_of_lt_of_le (by norm_num) (h0 c₀ (by simp))
      obtain ⟨c, l₁, l₂, hfold, hsplit, hmax, hpre⟩ :=
        foldMax_spec (score etype cfg) rest c₀
      refine ⟨c, l₁, l₂, ?_, hsplit, hmax, hpre⟩
      simp only [selectWinner, List.foldl_cons, if_pos hpos]
      rw [selectWinner_run etype cfg rest c₀, hfold]

/-- C1: per entity type, the selection loop of `fuse_entities` chooses
the candidate maximizing `score(c) = provider_weights[entity_type][provider]
× confidence_calibrated`, with an unknown provider (or an unknown entity
type) scoring 0 and ties broken by first-seen order; and on the three
DIMENSION candidates of the worked example under the default weights
(donut 0.9×0.3 = 0.27, reducto 0.6×0.55 = 0.33, layoutlmv3 0.4×0.1 =
0.04) the fused winner is candidate B, the reducto one. -/
theorem c1_fuse_selects_weighted_argmax :
    (∀ (cands : List Candidate) (etype : String) (cfg : Cfg),
        cands ≠ [] → (∀ c ∈ cands, 0 ≤ score etype cfg c) →
        ∃ c l₁ l₂, selectWinner cands etype cfg = some c ∧
          cands = l₁ ++ c :: l₂ ∧
          (∀ d ∈ cands, score etype cfg d ≤ score etype cfg c) ∧
          (∀ d ∈ l₁, score etype cfg d < score etype cfg c)) ∧
    (∀ (etype : String) (cfg : Cfg) (c : Candidate),
        lookupA cfg.fusionRules.providerWeights etype = none →
        score etype cfg c = 0) ∧
    (∀ (etype : String) (cfg : Cfg) (c : Candidate)
        (row : List (String × ℚ)),
        lookupA cfg.fusionRules.providerWeights etype = some row →
        lookupA row c.provider = none →
        score etype cfg c = 0) ∧
    (fuseEntities [dimCandA, dimCandB, dimCandC] defaultEnsembleCfg).map
        (fun c => c.provider) = ["reducto"] := by
  refine ⟨fun cands etype cfg hne h0 => selectWinner_spec cands etype cfg hne h0,
    ?_, ?_, by decide⟩
  · intro etype cfg c h
    simp [score, weightFor, h]
  · intro etype cfg c row hrow hprov
    simp [score, weightFor, hrow, hprov]

/-- Witness for C1: the argmax characterization applied to the three
example candidates under the default configuration. -/
theorem c1_witness :
    ([dimCandA, dimCandB, dimCandC] ≠ []) ∧
    (∀ c ∈ [dimCandA, dimCandB, dimCandC],
        0 ≤ score "DIMENSION" defaultEnsembleCfg c) ∧
    ∃ c l₁ l₂,
      selectWinner [dimCandA, dimCandB, dimCandC] "DIMENSION"
          defaultEnsembleCfg = some c ∧
      [dimCandA, dimCandB, dimCandC] = l₁ ++ c :: l₂ ∧
      (∀ d ∈ [dimCandA, dimCandB, dimCandC],
          score "DIMENSION" defaultEnsembleCfg d ≤
            score "DIMENSION" defaultEnsembleCfg c) ∧
      (∀ d ∈ l₁,
          score "DIMENSION" defaultEnsembleCfg d <
            score "DIMENSION" defaultEnsembleCfg c) :=
  ⟨by decide, by decide,
   c1_fuse_selects_weighted_argmax.1 [dimCandA, dimCandB, dimCandC]
     "DIMENSION" defaultEnsembleCfg (by decide) (by decide)⟩

/-- C5: every candidate below the hotspot threshold contributes its
page/bbox region to the backup-provider lists fixed by its entity type
(TABLE to layoutlm and donut, DIMENSION to donut, WELD to layoutlm,
NOTE to textract), each returned per-provider region list is truncated
to `max_regions_per_page`, and the WELD candidate of confidence 0.3
under the default threshold 0.75 appears in `regions_for_layoutlm`. -/
theorem c5_hotspot_regions :
    (∀ (cands : List Candidate) (cfg : Cfg),
        (findHotspots cands cfg).regionsForTextract.length ≤ maxRegionsD cfg ∧
        (findHotspots cands cfg).regionsForDonut.length ≤ maxRegionsD cfg ∧
        (findHotspots cands cfg).regionsForLayoutlm.length ≤ maxRegionsD cfg) ∧
    (∀ (cands : List Candidate) (cfg : Cfg) (c : Candidate), c ∈ cands →
        c.confidence < thD cfg →
        (c.entityType = "TABLE" →
          regionOf c ∈ regionsFull layoutlmCond (thD cfg) cands ∧
          regionOf c ∈ regionsFull donutCond (thD cfg) cands) ∧
        (c.entityType = "DIMENSION" →
          regionOf c ∈ regionsFull donutCond (thD cfg) cands) ∧
        (c.entityType = "WELD" →
          regionOf c ∈ regionsFull layoutlmCond (thD cfg) cands) ∧
        (c.entityType = "NOTE" →
          regionOf c ∈ regionsFull textractCond (thD cfg) cands)) ∧
    regionOf weldLowConf ∈
      (findHotspots [weldLowConf] defaultEnsembleCfg).regionsForLayoutlm := by
  refine ⟨?_, ?_, by decide⟩
  · intro cands cfg
    refine ⟨?_, ?_, ?_⟩ <;>
      simp [findHotspots, List.length_take]
  · intro cands cfg c hc hconf
    refine ⟨?_, ?_, ?_, ?_⟩ <;> intro het <;>
      first
        | exact ⟨List.mem_filterMap.mpr ⟨c, hc, by simp [layoutlmCond, hconf, het]⟩,
            List.mem_filterMap.mpr ⟨c, hc, by simp [donutCond, hconf, het]⟩⟩
        | exact List.mem_filterMap.mpr ⟨c, hc, by
            simp [donutCond, layoutlmCond, textractCond, hconf, het]⟩

/-- Witness for C5: the low-confidence WELD example candidate feeds the
layoutlm region list and the returned list respects the cap. -/
theorem c5_witness :
    weldLowConf ∈ [weldLowConf] ∧
    weldLowConf.confidence < thD defaultEnsembleCfg ∧
    regionOf weldLowConf ∈
      regionsFull layoutlmCond (thD defaultEnsembleCfg) [weldLowConf] ∧
    (findHotspots [weldLowConf] defaultEnsembleCfg).regionsForLayoutlm.length ≤
      maxRegionsD defaultEnsembleCfg :=
  ⟨by simp, by decide,
   (c5_hotspot_regions.2.1 [weldLowConf] defaultEnsembleCfg weldLowConf
       (by simp) (by decide)).2.2.1 rfl,
   (c5_hotspot_regions.1 [weldLowConf] defaultEnsembleCfg).2.2⟩

/-- A successful association lookup comes from a binding of the list. -/
theorem lookupA_mem {α : Type} :
    ∀ (l : List (String × α)) (k : String) (v : α),
      lookupA l k = some v → (k, v) ∈ l := by
  intro l
  induction l with
  | nil => intro k v h; simp [lookupA] at h
  | cons p rest ih =>
      intro k v h
      obtain ⟨pk, pv⟩ := p
      by_cases hk : pk = k
      · simp only [lookupA, if_pos hk] at h
        cases h
        subst hk
        exact List.mem_cons_self _ _
      · simp only [lookupA, if_neg hk] at h
        exact List.mem_cons_of_mem _ (ih k v h)

/-- When every weight in the configuration table is non-negative, every
effective weight (including the 0 defaults) is non-negative. -/
theorem weightFor_nonneg (cfg : Cfg)
    (h : ∀ row ∈ cfg.fusionRules.providerWeights, ∀ pw ∈ row.2, 0 ≤ pw.2) :
    ∀ (provider entityType : String), 0 ≤ weightFor provider entityType cfg := by
  intro p et
  rcases hrow : lookupA cfg.fusionRules.providerWeights et with _ | row
  · simp [weightFor, hrow]
  · rcases hw : lookupA row p with _ | w
    · simp [weightFor, hrow, hw]
    · have hww := h (et, row) (lookupA_mem _ _ _ hrow) (p, w)
        (lookupA_mem _ _ _ hw)
      simpa [weightFor, hrow, hw] using hww

/-- A `filterMap` whose function succeeds on every element preserves the
list length. -/
theorem length_filterMap_all_isSome {α β : Type} (f : α → Option β) :
    ∀ (l : List α), (∀ x ∈ l, (f x).isSome) →
      (l.filterMap f).length = l.length := by
  intro l
  induction l with
  | nil => intro _; rfl
  | cons x l ih =>
      intro h
      obtain ⟨y, hy⟩ := Option.isSome_iff_exists.mp (h x (by simp))
      simp [List.filterMap_cons, hy, ih (fun z hz => h z (by simp [hz]))]

/-- Membership in the accumulated key list of the `by_type` grouping. -/
theorem mem_groupKeys_go (t : String) :
    ∀ (l : List Candidate) (acc : List String),
      (t ∈ l.foldl
          (fun ks c => if c.entityType ∈ ks then ks else ks ++ [c.entityType])
          acc)
        ↔ t ∈ acc ∨ ∃ c ∈ l, c.entityType = t := by
  intro l
  induction l with
  | nil => intro acc; simp
  | cons c l ih =>
      intro acc
      rw [List.foldl_cons]
      by_cases hm : c.entityType ∈ acc
      · rw [if_pos hm, ih]
        constructor
        · rintro (h | ⟨d, hd, hdt⟩)
          · exact Or.inl h
          · exact Or.inr ⟨d, by simp [hd], hdt⟩
        · rintro (h | ⟨d, hd, hdt⟩)
          · exact Or.inl h
          · rcases List.mem_cons.mp hd with rfl | hd2
            · exact Or.inl (hdt ▸ hm)
            · exact Or.inr ⟨d, hd2, hdt⟩
      · rw [if_neg hm, ih]
        constructor
        · rintro (h | ⟨d, hd, hdt⟩)
          · rcases List.mem_append.mp h with h | h
            · exact Or.inl h
            · have ht : t = c.entityType := by simpa using h
              exact Or.inr ⟨c, by simp, ht.symm⟩
          · exact Or.inr ⟨d, by simp [hd], hdt⟩
        · rintro (h | ⟨d, hd, hdt⟩)
          · exact Or.inl (List.mem_append.mpr (Or.inl h))
          · rcases List.mem_cons.mp hd with rfl | hd2
            · exact Or.inl (List.mem_append.mpr (Or.inr (by simp [hdt])))
            · exact Or.inr ⟨d, hd2, hdt⟩

/-- The grouping key list has no duplicates. -/
theorem groupKeys_go_nodup :
    ∀ (l : List Candidate) (acc : List String), acc.Nodup →
      (l.foldl
          (fun ks c => if c.entityType ∈ ks then ks else ks ++ [c.entityType])
          acc).Nodup := by
  intro l
  induction l with
  | nil => intro acc h; exact h
  | cons c l ih =>
      intro acc h
      rw [List.foldl_cons]
      by_cases hm : c.entityType ∈ acc
      · rw [if_pos hm]
        exact ih acc h
      · rw [if_neg hm]
        exact ih (acc ++ [c.entityType]) (by simp [List.nodup_append, h, hm])

/-- Membership characterization of `groupKeys`. -/
theorem mem_groupKeys (t : String) (cands : List Candidate) :
    t ∈ groupKeys cands ↔ ∃ c ∈ cands, c.entityType = t := by
  unfold groupKeys
  rw [mem_groupKeys_go]
  simp

/-- The grouping key list of `fuse_entities` is duplicate-free. -/
theorem groupKeys_nodup (cands : List Candidate) : (groupKeys cands).Nodup :=
  groupKeys_go_nodup cands [] (by simp)

/-- `boostDimGo` preserves list length. -/
theorem boostDimGo_length (all : List Candidate) (b : ℚ) :
    ∀ (l : List Candidate) (i : Nat), (boostDimGo all b i l).length = l.length := by
  intro l
  induction l with
  | nil => intro i; rfl
  | cons c l ih => intro i; simp [boostDimGo, ih]

/-- `_boost_if_agreement` preserves the number of candidates. -/
theorem boostIfAgreement_length (cands : List Candidate) (t : String)
    (cfg : Cfg) : (boostIfAgreement cands t cfg).length = cands.length := by
  unfold boostIfAgreement
  split
  · rfl
  · split
    · exact boostDimGo_length cands (boostD cfg) cands 0
    · split
      · simp [boostTable]
      · rfl

/-- Every member of a `boostDimGo` run is `boostDimOne` of a member of
the traversed list. -/
theorem mem_boostDimGo (all : List Candidate) (b : ℚ) :
    ∀ (l : List Candidate) (i : Nat) (x : Candidate),
      x ∈ boostDimGo all b i l →
      ∃ j c, c ∈ l ∧ x = boostDimOne all b j c := by
  intro l
  induction l with
  | nil => intro i x h; simp [boostDimGo] at h
  | cons c l ih =>
      intro i x h
      rcases List.mem_cons.mp h with rfl | h
      · exact ⟨i, c, by simp, rfl⟩
      · obtain ⟨j, d, hd, hx⟩ := ih (i + 1) x h
        exact ⟨j, d, by simp [hd], hx⟩

/-- `boostDimOne` keeps the effective calibrated confidence
non-negative. -/
theorem calibD_boostDimOne_nonneg (all : List Candidate) (b : ℚ) (i : Nat)
    (c : Candidate) (hb : 0 ≤ b) (hc : 0 ≤ calibD c) :
    0 ≤ calibD (boostDimOne all b i c) := by
  unfold boostDimOne
  split
  · exact hc
  · split
    · simp only [calibD, Option.getD_some]
      refine le_min (by norm_num) ?_
      have hcc : (0:ℚ) ≤ c.confidenceCalibrated.getD c.confidence := hc
      linarith
    · exact hc

/-- `_boost_if_agreement` keeps every effective calibrated confidence
non-negative. -/
theorem calibD_boostIfAgreement_nonneg (cands : List Candidate) (t : String)
    (cfg : Cfg) (h : ∀ c ∈ cands, 0 ≤ calibD c) :
    ∀ x ∈ boostIfAgreement cands t cfg, 0 ≤ calibD x := by
  intro x hx
  unfold boostIfAgreement at hx
  split at hx
  · exact h x hx
  · rename_i hgate
    have hb : 0 ≤ boostD cfg := by
      push_neg at hgate
      exact le_of_lt hgate.2
    split at hx
    · unfold boostDimension at hx
      obtain ⟨j, c, hc2, rfl⟩ := mem_boostDimGo cands (boostD cfg) cands 0 x hx
      exact calibD_boostDimOne_nonneg cands (boostD cfg) j c hb (h c hc2)
    · split at hx
      · unfold boostTable at hx
        obtain ⟨c, hc2, rfl⟩ := List.mem_map.mp hx
        simp only [calibD, Option.getD_some]
        refine le_min (by norm_num) ?_
        have hcc : (0:ℚ) ≤ calibD c := h c hc2
        unfold calibD at hcc
        linarith
      · exact h x hx

/-- With non-negative weights and calibrated confidences, every group of
`fuse_entities` produces a fused entity. -/
theorem fuseGroup_isSome (t : String) (cands : List Candidate) (cfg : Cfg)
    (hne : cands ≠ [])
    (hw : ∀ (provider entityType : String), 0 ≤ weightFor provider entityType cfg)
    (hc : ∀ c ∈ cands, 0 ≤ calibD c) :
    (fuseGroup t cands cfg).isSome := by
  have hblen : (boostIfAgreement cands t cfg).length = cands.length :=
    boostIfAgreement_length cands t cfg
  have hbne : boostIfAgreement cands t cfg ≠ [] := by
    intro hnil
    apply hne
    have := hblen
    rw [hnil] at this
    exact List.eq_nil_of_length_eq_zero this.symm
  have hscore : ∀ c ∈ boostIfAgreement cands t cfg, 0 ≤ score t cfg c := by
    intro c hcmem
    exact mul_nonneg (hw c.provider t)
      (calibD_boostIfAgreement_nonneg cands t cfg hc c hcmem)
  obtain ⟨c, l₁, l₂, hsel, _, _, _⟩ :=
    selectWinner_spec (boostIfAgreement cands t cfg) t cfg hbne hscore
  unfold fuseGroup
  rw [hsel]
  rfl

/-- C10: `fuse_entities` emits exactly one fused entity per distinct
entity type present in the input — the -1.0 initialization of the
running best score guarantees a winner even for a group whose scores are
all 0 (e.g. providers unknown to a non-negative weight table) — so the
output length equals the number of distinct entity types among the
inputs. -/
theorem c10_one_fused_per_type (cands : List Candidate) (cfg : Cfg)
    (hw : ∀ row ∈ cfg.fusionRules.providerWeights, ∀ pw ∈ row.2, 0 ≤ pw.2)
    (hc : ∀ c ∈ cands, 0 ≤ calibD c) :
    (fuseEntities cands cfg).length =
      (cands.map (fun c => c.entityType)).toFinset.card := by
  have hwf := weightFor_nonneg cfg hw
  have hlen : (fuseEntities cands cfg).length = (groupKeys cands).length := by
    unfold fuseEntities
    apply length_filterMap_all_isSome
    intro t ht
    obtain ⟨c, hcmem, hct⟩ := (mem_groupKeys t cands).mp ht
    have hne : groupFor cands t ≠ [] := by
      apply List.ne_nil_of_mem (a := c)
      unfold groupFor
      simp [List.mem_filter, hcmem, hct]
    exact fuseGroup_isSome t (groupFor cands t) cfg hne hwf
      (fun d hd => hc d (List.mem_of_mem_filter hd))
  rw [hlen]
  have hfin : (groupKeys cands).toFinset =
      (cands.map (fun c => c.entityType)).toFinset := by
    ext t
    simp [mem_groupKeys]
  rw [← hfin, List.toFinset_card_of_nodup (groupKeys_nodup cands)]

/-- Witness for C10: three candidates spanning two entity types fuse to
exactly two entities under the default configuration. -/
theorem c10_witness :
    (fuseEntities [dimCandA, dimCandB, weldSizeZero] defaultEnsembleCfg).length =
      (([dimCandA, dimCandB, weldSizeZero].map
          (fun c => c.entityType)).toFinset).card :=
  c10_one_fused_per_type [dimCandA, dimCandB, weldSizeZero] defaultEnsembleCfg
    (by decide) (by decide)

/-- Index access through a `boostDimGo` traversal started at offset `i`. -/
theorem boostDimGo_getElem (all : List Candidate) (b : ℚ) :
    ∀ (l : List Candidate) (i j : Nat),
      (boostDimGo all b i l)[j]? =
        (l[j]?).map (fun c => boostDimOne all b (i + j) c) := by
  intro l
  induction l with
  | nil => intro i j; simp [boostDimGo]
  | cons c rest ih =>
      intro i j
      cases j with
      | zero => simp [boostDimGo]
      | succ j =>
          simp only [boostDimGo, List.getElem?_cons_succ, ih (i + 1) j]
          have : i + 1 + j = i + (j + 1) := by omega
          rw [this]

/-- Membership in `enumFrom`: positions are offset by the start. -/
theorem mem_enumFrom :
    ∀ (l : List Candidate) (i j : Nat) (d : Candidate),
      (j, d) ∈ enumFrom i l ↔ ∃ k, j = i + k ∧ l[k]? = some d := by
  intro l
  induction l with
  | nil => intro i j d; simp [enumFrom]
  | cons c rest ih =>
      intro i j d
      simp only [enumFrom, List.mem_cons, ih (i + 1) j d]
      constructor
      · rintro (h | ⟨k, hk, hkd⟩)
        · obtain ⟨h1, h2⟩ := Prod.mk.injEq .. ▸ h
          injection h with h1 h2
          exact ⟨0, by omega, by simp [h2]⟩
        · exact ⟨k + 1, by omega, by simpa using hkd⟩
      · rintro ⟨k, hk, hkd⟩
        cases k with
        | zero =>
            left
            simp only [List.getElem?_cons_zero, Option.some.injEq] at hkd
            simp [hk, hkd]
        | succ k =>
            right
            exact ⟨k, by omega, by simpa using hkd⟩

/-- Membership in the recorded agreement-partner providers: exactly the
providers of the other positions holding the same field value. -/
theorem mem_partnersAt (cands : List Candidate) (i : Nat) (v : Value)
    (p : String) :
    p ∈ partnersAt (enumFrom 0 cands) i v ↔
      ∃ j d, cands[j]? = some d ∧ j ≠ i ∧ dimValue d = some v ∧
        d.provider = p := by
  unfold partnersAt
  rw [List.mem_dedup, List.mem_map]
  constructor
  · rintro ⟨⟨j, d⟩, hmem, hp⟩
    rw [List.mem_filter] at hmem
    obtain ⟨henum, hcond⟩ := hmem
    simp only [Bool.and_eq_true, decide_eq_true_eq] at hcond
    obtain ⟨k, hk, hkd⟩ := (mem_enumFrom cands 0 j d).mp henum
    exact ⟨j, d, by simpa [hk] using hkd, hcond.1, hcond.2, hp⟩
  · rintro ⟨j, d, hjd, hji, hdv, hp⟩
    refine ⟨(j, d), ?_, hp⟩
    rw [List.mem_filter]
    constructor
    · exact (mem_enumFrom cands 0 j d).mpr ⟨j, by omega, hjd⟩
    · simp [hji, hdv]

/-- C6: during calibration, every member of a group of two or more
DIMENSION candidates sharing an exactly equal field value gets its
calibrated confidence set to `min(1, previous calibrated confidence +
boost)` and records exactly the providers of the other group positions
as agreement partners; and every TABLE candidate gets the universal
`boost/2` (clamped to 1) regardless of agreement. -/
theorem c6_calibration_boosts (cands : List Candidate) (cfg : Cfg)
    (hb : 0 < boostD cfg) :
    (∀ (i : Nat) (c : Candidate) (v : Value),
        cands[i]? = some c → dimValue c = some v →
        2 ≤ cands.countP (fun d => dimValue d = some v) →
        ∃ out, (boostIfAgreement cands "DIMENSION" cfg)[i]? = some out ∧
          out.confidenceCalibrated = some (min 1 (calibD c + boostD cfg)) ∧
          (∀ p, p ∈ out.agreementPartners.getD [] ↔
            ∃ j d, cands[j]? = some d ∧ j ≠ i ∧ dimValue d = some v ∧
              d.provider = p)) ∧
    (∀ (i : Nat) (c : Candidate),
        cands[i]? = some c →
        ∃ out, (boostIfAgreement cands "TABLE" cfg)[i]? = some out ∧
          out.confidenceCalibrated = some (min 1 (calibD c + boostD cfg / 2))) := by
  have hgate : ¬(cands = [] ∨ boostD cfg ≤ 0) ∨ cands = [] := by
    by_cases hc : cands = []
    · exact Or.inr hc
    · exact Or.inl (by push_neg; exact ⟨hc, hb⟩)
  constructor
  · intro i c v hic hcv hcount
    have hne : cands ≠ [] := by
      intro h
      rw [h] at hic
      simp at hic
    have hg : ¬(cands = [] ∨ boostD cfg ≤ 0) := by
      push_neg
      exact ⟨hne, hb⟩
    refine ⟨boostDimOne cands (boostD cfg) i c, ?_, ?_, ?_⟩
    · unfold boostIfAgreement
      rw [if_neg hg, if_pos rfl]
      unfold boostDimension
      rw [boostDimGo_getElem cands (boostD cfg) cands 0 i, hic]
      simp
    · unfold boostDimOne
      simp only [hcv]
      rw [if_pos hcount]
    · intro p
      unfold boostDimOne
      simp only [hcv]
      rw [if_pos hcount]
      simpa using mem_partnersAt cands i v p
  · intro i c hic
    have hne : cands ≠ [] := by
      intro h
      rw [h] at hic
      simp at hic
    have hg : ¬(cands = [] ∨ boostD cfg ≤ 0) := by
      push_neg
      exact ⟨hne, hb⟩
    refine ⟨{ c with
        confidenceCalibrated := some (min 1 (calibD c + boostD cfg / 2)) },
      ?_, rfl⟩
    unfold boostIfAgreement
    rw [if_neg hg, if_neg (by decide), if_pos rfl]
    unfold boostTable
    rw [List.getElem?_map, hic]
    rfl

/-- Witness for C6: two of three DIMENSION candidates share the exact
value "25mm" under a 0.2 agreement boost; the first member is boosted by
0.2 (clamped) and records exactly the other agreeing provider. -/
theorem c6_witness :
    0 < boostD boostCfg ∧
    [dimAgreeA, dimAgreeB, dimAgreeC][0]? = some dimAgreeA ∧
    dimValue dimAgreeA = some (.str "25mm") ∧
    2 ≤ [dimAgreeA, dimAgreeB, dimAgreeC].countP
        (fun d => dimValue d = some (.str "25mm")) ∧
    ∃ out,
      (boostIfAgreement [dimAgreeA, dimAgreeB, dimAgreeC] "DIMENSION"
          boostCfg)[0]? = some out ∧
      out.confidenceCalibrated = some (min 1 (calibD dimAgreeA + boostD boostCfg)) ∧
      (∀ p, p ∈ out.agreementPartners.getD [] ↔
        ∃ j d, [dimAgreeA, dimAgreeB, dimAgreeC][j]? = some d ∧ j ≠ 0 ∧
          dimValue d = some (.str "25mm") ∧ d.provider = p) :=
  ⟨by decide, rfl, rfl, by decide,
   (c6_calibration_boosts [dimAgreeA, dimAgreeB, dimAgreeC] boostCfg
       (by decide)).1 0 dimAgreeA (.str "25mm") rfl rfl (by decide)⟩

/-- The agreement boost leaves a WELD group untouched. -/
theorem boostIfAgreement_weld (cands : List Candidate) (cfg : Cfg) :
    boostIfAgreement cands "WELD" cfg = cands := by
  unfold boostIfAgreement
  split
  · rfl
  · rw [if_neg (by decide), if_neg (by decide)]

/-- The nested WELD backfill loop equals the single fold over its
visited candidate/field pairs. -/
theorem backfillFold_eq_pairs (wc : ℚ) :
    ∀ (cands : List Candidate) (st : Fields × String),
      cands.foldl (fun st c => weldFieldNames.foldl (backfillStep wc c) st) st
        = backfillPairs wc st (fieldPairs cands) := by
  intro cands
  induction cands with
  | nil => intro st; rfl
  | cons c l ih =>
      intro st
      rw [List.foldl_cons, ih]
      unfold backfillPairs fieldPairs
      rw [List.flatMap_cons, List.foldl_append, List.foldl_map]

/-- `backfillWeld` as a fold over candidate/field pairs. -/
theorem backfillWeld_eq_pairs (f0 : Fields) (wc : ℚ)
    (cands : List Candidate) :
    backfillWeld f0 wc cands =
      backfillPairs wc (f0, "owner_default") (fieldPairs cands) :=
  backfillFold_eq_pairs wc cands (f0, "owner_default")

/-- Field assignment stores the value at its own key. -/
theorem lookupF_setF_self :
    ∀ (f : Fields) (k : String) (v : Value),
      lookupF (setF f k v) k = some v := by
  intro f
  induction f with
  | nil => intro k v; simp [setF, lookupF]
  | cons p rest ih =>
      intro k v
      obtain ⟨pk, pv⟩ := p
      by_cases hk : pk = k
      · simp [setF, if_pos hk, lookupF, hk]
      · simp [setF, if_neg hk, lookupF, hk, ih]

/-- Field assignment leaves other keys unchanged. -/
theorem lookupF_setF_other :
    ∀ (f : Fields) (k k2 : String) (v : Value), k2 ≠ k →
      lookupF (setF f k2 v) k = lookupF f k := by
  intro f
  induction f with
  | nil =>
      intro k k2 v hne
      simp [setF, lookupF, hne]
  | cons p rest ih =>
      intro k k2 v hne
      obtain ⟨pk, pv⟩ := p
      by_cases hk : pk = k2
      · subst hk
        simp [setF, lookupF, hne]
      · simp only [setF, if_neg hk, lookupF]
        by_cases hk2 : pk = k
        · simp [if_pos hk2]
        · simp [if_neg hk2, ih k k2 v hne]

/-- One backfill check either keeps the reason field or sets it to
`field_backfill`. -/
theorem backfillStep_snd (wc : ℚ) (c : Candidate) (st : Fields × String)
    (k : String) :
    (backfillStep wc c st k).2 = st.2 ∨
      (backfillStep wc c st k).2 = "field_backfill" := by
  unfold backfillStep
  split
  · exact Or.inl rfl
  · split
    · exact Or.inr rfl
    · exact Or.inl rfl

/-- Once the reason has been set to `field_backfill`, it stays. -/
theorem backfillPairs_reason_mono (wc : ℚ) :
    ∀ (ps : List (Candidate × String)) (st : Fields × String),
      st.2 = "field_backfill" →
      (backfillPairs wc st ps).2 = "field_backfill" := by
  intro ps
  induction ps with
  | nil => intro st h; exact h
  | cons p ps ih =>
      intro st h
      unfold backfillPairs
      rw [List.foldl_cons]
      refine ih (backfillStep wc p.1 st p.2) ?_
      rcases backfillStep_snd wc p.1 st p.2 with h2 | h2
      · rw [h2, h]
      · exact h2

/-- The backfill loop ends with reason `field_backfill` exactly when
some visited candidate/field pair satisfies the copy condition stated
against the original winner fields. -/
theorem backfillPairs_reason_iff (wc : ℚ) :
    ∀ (ps : List (Candidate × String)) (orig : Fields),
      (backfillPairs wc (orig, "owner_default") ps).2 = "field_backfill" ↔
        ∃ p ∈ ps, backfillTriggerB wc orig p.1 p.2 = true := by
  intro ps
  induction ps with
  | nil => intro orig; simp [backfillPairs]
  | cons p ps ih =>
      intro orig
      unfold backfillPairs
      rw [List.foldl_cons]
      rcases hv : lookupF p.1.fields p.2 with _ | u
      · have hstep : backfillStep wc p.1 (orig, "owner_default") p.2 =
            (orig, "owner_default") := by
          unfold backfillStep
          rw [hv]
        rw [hstep]
        have htrig : backfillTriggerB wc orig p.1 p.2 = false := by
          simp [backfillTriggerB, filledAt, hv]
        rw [show (List.foldl (fun st p => backfillStep wc p.1 st p.2)
            (orig, "owner_default") ps) =
            backfillPairs wc (orig, "owner_default") ps from rfl, ih orig]
        constructor
        · rintro ⟨q, hq, hqt⟩
          exact ⟨q, by simp [hq], hqt⟩
        · rintro ⟨q, hq, hqt⟩
          rcases List.mem_cons.mp hq with rfl | hq2
          · rw [htrig] at hqt; cases hqt
          · exact ⟨q, hq2, hqt⟩
      · by_cases hcond : (isEmptyZero (lookupF orig p.2) && isNonNullStr u &&
            decide (wc ≤ calibZ p.1)) = true
        · have hstep : backfillStep wc p.1 (orig, "owner_default") p.2 =
              (setF orig p.2 u, "field_backfill") := by
            unfold backfillStep
            rw [hv]
            dsimp only
            rw [if_pos hcond]
          rw [hstep]
          have hmono := backfillPairs_reason_mono wc ps
            (setF orig p.2 u, "field_backfill") rfl
          unfold backfillPairs at hmono
          rw [hmono]
          have htrig : backfillTriggerB wc orig p.1 p.2 = true := by
            simp only [backfillTriggerB, filledAt, hv]
            exact hcond
          simp only [true_iff]
          exact ⟨p, by simp, htrig⟩
        · have hstep : backfillStep wc p.1 (orig, "owner_default") p.2 =
              (orig, "owner_default") := by
            unfold backfillStep
            rw [hv]
            dsimp only
            rw [if_neg hcond]
          rw [hstep]
          have htrig : backfillTriggerB wc orig p.1 p.2 = false := by
            simp only [backfillTriggerB, filledAt, hv]
            exact Bool.not_eq_true _ ▸ (by simpa using hcond)
          rw [show (List.foldl (fun st p => backfillStep wc p.1 st p.2)
              (orig, "owner_default") ps) =
              backfillPairs wc (orig, "owner_default") ps from rfl, ih orig]
          constructor
          · rintro ⟨q, hq, hqt⟩
            exact ⟨q, by simp [hq], hqt⟩
          · rintro ⟨q, hq, hqt⟩
            rcases List.mem_cons.mp hq with rfl | hq2
            · rw [htrig] at hqt; cases hqt
            · exact ⟨q, hq2, hqt⟩

/-- Once field `k` holds `v₀` and every backfill source for `k` agrees
on `v₀`, the backfill loop keeps `k` at `v₀`. -/
theorem backfillPairs_keep (k : String) (v₀ : Value) (wc : ℚ) :
    ∀ (ps : List (Candidate × String)) (st : Fields × String),
      lookupF st.1 k = some v₀ →
      (∀ p ∈ ps, p.2 = k → ∀ u, lookupF p.1.fields k = some u →
        isNonNullStr u = true → u = v₀) →
      lookupF (backfillPairs wc st ps).1 k = some v₀ := by
  intro ps
  induction ps with
  | nil => intro st h _; exact h
  | cons p ps ih =>
      intro st hcur hwrites
      unfold backfillPairs
      rw [List.foldl_cons]
      refine ih (backfillStep wc p.1 st p.2) ?_
        (fun q hq => hwrites q (by simp [hq]))
      unfold backfillStep
      rcases hv : lookupF p.1.fields p.2 with _ | u
      · exact hcur
      · dsimp only
        split
        · rename_i hcond
          by_cases hk : p.2 = k
          · subst hk
            rw [lookupF_setF_self]
            simp only [Bool.and_eq_true] at hcond
            have := hwrites p (by simp) rfl u hv hcond.1.2
            rw [this]
          · rw [lookupF_setF_other st.1 k p.2 u hk]
            exact hcur
        · exact hcur

/-- When the winner's field `k` starts empty/null/zero, every backfill
source for `k` agrees on `v₀`, and some visited pair for `k` passes the
source and confidence tests, the backfill loop ends with `k = v₀`. -/
theorem backfillPairs_fill (k : String) (v₀ : Value) (wc : ℚ) :
    ∀ (ps : List (Candidate × String)) (st : Fields × String),
      isEmptyZero (lookupF st.1 k) = true →
      (∀ p ∈ ps, p.2 = k → ∀ u, lookupF p.1.fields k = some u →
        isNonNullStr u = true → u = v₀) →
      (∃ p ∈ ps, p.2 = k ∧ filledAt p.1 k = true ∧ wc ≤ calibZ p.1) →
      lookupF (backfillPairs wc st ps).1 k = some v₀ := by
  intro ps
  induction ps with
  | nil =>
      intro st _ _ hfire
      obtain ⟨p, hp, _⟩ := hfire
      simp at hp
  | cons p ps ih =>
      intro st hemp hwrites hfire
      unfold backfillPairs
      rw [List.foldl_cons]
      have hwrites2 : ∀ q ∈ ps, q.2 = k → ∀ u, lookupF q.1.fields k = some u →
          isNonNullStr u = true → u = v₀ :=
        fun q hq => hwrites q (by simp [hq])
      rcases hv : lookupF p.1.fields p.2 with _ | u
      · have hstep : backfillStep wc p.1 st p.2 = st := by
          unfold backfillStep
          rw [hv]
        rw [hstep]
        refine ih st hemp hwrites2 ?_
        obtain ⟨q, hq, hqk, hqf, hqc⟩ := hfire
        rcases List.mem_cons.mp hq with rfl | hq2
        · exfalso
          rw [hqk] at hv
          simp [filledAt, hv] at hqf
        · exact ⟨q, hq2, hqk, hqf, hqc⟩
      · by_cases hcond : (isEmptyZero (lookupF st.1 p.2) && isNonNullStr u &&
            decide (wc ≤ calibZ p.1)) = true
        · have hstep : backfillStep wc p.1 st p.2 =
              (setF st.1 p.2 u, "field_backfill") := by
            unfold backfillStep
            rw [hv]
            dsimp only
            rw [if_pos hcond]
          rw [hstep]
          simp only [Bool.and_eq_true] at hcond
          by_cases hk : p.2 = k
          · have hu : u = v₀ := hwrites p (by simp) hk u (hk ▸ hv) hcond.1.2
            refine backfillPairs_keep k v₀ wc ps _ ?_ hwrites2
            rw [hk, lookupF_setF_self, hu]
          · refine ih _ ?_ hwrites2 ?_
            · rw [lookupF_setF_other st.1 k p.2 u hk]
              exact hemp
            · obtain ⟨q, hq, hqk, hqf, hqc⟩ := hfire
              rcases List.mem_cons.mp hq with rfl | hq2
              · exact absurd hqk hk
              · exact ⟨q, hq2, hqk, hqf, hqc⟩
        · have hstep : backfillStep wc p.1 st p.2 = st := by
            unfold backfillStep
            rw [hv]
            dsimp only
            rw [if_neg hcond]
          rw [hstep]
          refine ih st hemp hwrites2 ?_
          obtain ⟨q, hq, hqk, hqf, hqc⟩ := hfire
          rcases List.mem_cons.mp hq with rfl | hq2
          · exfalso
            apply hcond
            rw [hqk] at hv ⊢
            simp only [filledAt, hv] at hqf
            simp [hemp, hqf, hqc]
          · exact ⟨q, hq2, hqk, hqf, hqc⟩

/-- Membership in the visited candidate/field pairs. -/
theorem mem_fieldPairs (q : Candidate × String) (cands : List Candidate) :
    q ∈ fieldPairs cands ↔
      ∃ c ∈ cands, ∃ k ∈ weldFieldNames, q = (c, k) := by
  unfold fieldPairs
  rw [List.mem_flatMap]
  constructor
  · rintro ⟨c, hc, hq⟩
    obtain ⟨k, hk, hqk⟩ := List.mem_map.mp hq
    exact ⟨c, hc, k, hk, hqk.symm⟩
  · rintro ⟨c, hc, k, hk, rfl⟩
    exact ⟨c, hc, List.mem_map.mpr ⟨k, hk, rfl⟩⟩

/-- Shape of the fused WELD entity produced by `fuse_entities` once the
winner is selected. -/
theorem fuseGroup_weld (cands : List Candidate) (cfg : Cfg) (w : Candidate)
    (hsel : selectWinner cands "WELD" cfg = some w) :
    fuseGroup "WELD" cands cfg =
      some { cloneWinner w with
        fields := (backfillWeld w.fields (calibZ w) cands).1
        reason := some (backfillWeld w.fields (calibZ w) cands).2 } := by
  unfold fuseGroup
  rw [boostIfAgreement_weld, hsel]
  unfold fuseFinish
  dsimp only
  rw [if_neg (by decide), if_pos rfl]

/-- C2 counterexample: fusing a single WELD candidate whose `size` field
is the number 0 yields `_reason = "field_backfill"` although there is no
losing candidate at all — the winner clone is compared by object
identity, so the winner's own original backfills its zero-valued field —
refuting the claimed "only when a copy from a losing candidate
occurred". -/
theorem c2_counterexample :
    (fuseEntities [weldSizeZero] defaultEnsembleCfg).map (fun c => c.reason)
        = [some "field_backfill"] ∧
    [weldSizeZero].length = 1 := by
  exact ⟨by decide, rfl⟩

/-- C2 as amended: for a fused WELD winner `w`, `_reason` ends as
`field_backfill` exactly when some candidate of the group — the winner's
own pre-clone self included, since the `c is fused_ent` guard compares
against a fresh deep copy and never fires — has, at some field of the
fixed list, a value passing the source test while the winner's value is
empty/null/zero and the candidate's calibrated confidence is at least
the winner's; and when the winner's field is empty/null/zero, all
passing sources for it agree on a value `v`, and at least one such
source also passes the confidence test, that `v` is copied into the
winner. -/
theorem c2_weld_backfill_amended (cands : List Candidate) (cfg : Cfg)
    (w f : Candidate)
    (hsel : selectWinner cands "WELD" cfg = some w)
    (hfuse : fuseGroup "WELD" cands cfg = some f) :
    (f.reason = some "field_backfill" ↔
      ∃ c ∈ cands, ∃ k ∈ weldFieldNames,
        backfillTriggerB (calibZ w) w.fields c k = true) ∧
    (∀ (k : String) (v : Value), k ∈ weldFieldNames →
      isEmptyZero (lookupF w.fields k) = true →
      (∀ c ∈ cands, ∀ u, lookupF c.fields k = some u →
        isNonNullStr u = true → u = v) →
      (∃ c ∈ cands, filledAt c k = true ∧ calibZ w ≤ calibZ c) →
      lookupF f.fields k = some v) := by
  rw [fuseGroup_weld cands cfg w hsel] at hfuse
  have hf : f = { cloneWinner w with
      fields := (backfillWeld w.fields (calibZ w) cands).1
      reason := some (backfillWeld w.fields (calibZ w) cands).2 } :=
    (Option.some.injEq .. ▸ hfuse).symm
  subst hf
  constructor
  · show some (backfillWeld w.fields (calibZ w) cands).2 =
        some "field_backfill" ↔ _
    rw [Option.some.injEq, backfillWeld_eq_pairs,
      backfillPairs_reason_iff (calibZ w) (fieldPairs cands) w.fields]
    constructor
    · rintro ⟨q, hq, hqt⟩
      obtain ⟨c, hc, k, hk, rfl⟩ := (mem_fieldPairs q cands).mp hq
      exact ⟨c, hc, k, hk, hqt⟩
    · rintro ⟨c, hc, k, hk, ht⟩
      exact ⟨(c, k), (mem_fieldPairs (c, k) cands).mpr ⟨c, hc, k, hk, rfl⟩, ht⟩
  · intro k v hk hemp hagree hsource
    show lookupF (backfillWeld w.fields (calibZ w) cands).1 k = some v
    rw [backfillWeld_eq_pairs]
    refine backfillPairs_fill k v (calibZ w) (fieldPairs cands)
      (w.fields, "owner_default") hemp ?_ ?_
    · intro q hq hqk u hlu hnn
      obtain ⟨c, hc, k2, _, rfl⟩ := (mem_fieldPairs q cands).mp hq
      exact hagree c hc u hlu hnn
    · obtain ⟨c, hc, hcf, hcc⟩ := hsource
      exact ⟨(c, k), (mem_fieldPairs (c, k) cands).mpr ⟨c, hc, k, hk, rfl⟩,
        rfl, hcf, hcc⟩

/-- Witness for C2: the backfill example — a WELD winner missing `size`
and a losing candidate of equal calibrated confidence carrying
`size = "5mm"` — fused under the default configuration: the value is
copied and the reason is `field_backfill`. -/
theorem c2_witness :
    ∃ f, fuseGroup "WELD" [weldWinner, weldLoser] defaultEnsembleCfg = some f ∧
      ((f.reason = some "field_backfill" ↔
        ∃ c ∈ [weldWinner, weldLoser], ∃ k ∈ weldFieldNames,
          backfillTriggerB (calibZ weldWinner) weldWinner.fields c k = true) ∧
       (∀ (k : String) (v : Value), k ∈ weldFieldNames →
         isEmptyZero (lookupF weldWinner.fields k) = true →
         (∀ c ∈ [weldWinner, weldLoser], ∀ u, lookupF c.fields k = some u →
           isNonNullStr u = true → u = v) →
         (∃ c ∈ [weldWinner, weldLoser], filledAt c k = true ∧
           calibZ weldWinner ≤ calibZ c) →
         lookupF f.fields k = some v)) ∧
      f.reason = some "field_backfill" ∧
      lookupF f.fields "size" = some (.str "5mm") :=
  ⟨_, rfl,
   c2_weld_backfill_amended [weldWinner, weldLoser] defaultEnsembleCfg
     weldWinner _ rfl rfl,
   by decide, by decide⟩

end Hybrid
